import Mathlib

/-!
# Signum explorer bot: transaction gateway and update dispatcher

A shallow embedding of

* `api/signumapi/transaction.go` (`createTransaction`), and
* `internal/listener.go` (`StartBotListener`, one iteration of the update case),

followed by the properties established about them.

Go strings are Lean `String`s (sequences of runes); a Go `error` is the text of
its message; a Go `map[string]string` is an association list with unique keys.
-/

set_option autoImplicit false

namespace SignumApi

/-! ## Go values used by the gateway -/

/-- Go `map[string]string`. -/
abbrev UrlParams := List (String × String)

/-- Map read `m[k]` together with its presence flag. -/
def mapGet : UrlParams → String → Option String
  | [], _ => none
  | (k', v) :: rest, k => if k' = k then some v else mapGet rest k

/-- Map write `m[k] = v`: overwrite the entry when the key exists, add it otherwise. -/
def mapSet : UrlParams → String → String → UrlParams
  | [], k, v => [(k, v)]
  | (k', v') :: rest, k, v =>
    if k' = k then (k, v) :: rest else (k', v') :: mapSet rest k v

/-- A Go `float64`: a finite value `(-1)^neg * mant * 2^exp`, an infinity or a NaN.
Every IEEE-754 double is of this form (see `Float64.isDouble`). -/
inductive Float64 where
  | finite (neg : Bool) (mant : Nat) (exp : Int)
  | inf (neg : Bool)
  | nan
  deriving DecidableEq, Repr

namespace Float64

/-- The representations that are IEEE-754 binary64 values. -/
def isDouble : Float64 → Bool
  | finite _ m e => decide (m < 2 ^ 53) && decide (-1074 ≤ e) && decide (e ≤ 971)
  | _ => true

/-- Go comparison `x != 0` on `float64`: false exactly for the two zeros. -/
def neZero : Float64 → Bool
  | finite _ m _ => m != 0
  | _ => true

/-- The magnitude of a finite value as a rational number (0 for infinities and NaN). -/
def absRat : Float64 → ℚ
  | finite _ m e => (m : ℚ) * (2 : ℚ) ^ e
  | _ => 0

end Float64

/-- The integer nearest to `mant * 2^exp`, ties going to the even neighbour: the
rounding `strconv.FormatFloat(x, 'f', 0, 64)` applies to the exact decimal expansion. -/
def roundHalfEven (mant : Nat) : Int → Nat
  | Int.ofNat k => mant * 2 ^ k
  | Int.negSucc k =>
    let d := 2 ^ (k + 1)
    let q := mant / d
    let r := mant % d
    if d < 2 * r ∨ (2 * r = d ∧ q % 2 = 1) then q + 1 else q

/-- Go `fmt.Sprintf("%.f", x)` for a `float64`. -/
def formatF0 : Float64 → String
  | Float64.finite neg m e => (if neg then "-" else "") ++ Nat.repr (roundHalfEven m e)
  | Float64.inf neg => if neg then "-Inf" else "+Inf"
  | Float64.nan => "NaN"

/-- Go `fmt.Sprint(b)` for a `bool`. -/
def sprintBool (b : Bool) : String := if b then "true" else "false"

/-- Go `strconv.Itoa`. -/
def Itoa : Int → String
  | Int.ofNat n => Nat.repr n
  | Int.negSucc n => "-" ++ Nat.repr (n + 1)

/-! ## Data model of `transaction.go` -/

/-- The `TransactionRequest` struct. `RequestType` is a string kind (the code converts
it with `string(...)`), `FeeType` a `float64` kind (the code formats it with `%.f`). -/
structure TransactionRequest where
  RequestType : String
  Recipient : String
  Recipients : String
  Name : String
  Description : String
  SecretPhrase : String
  AmountNQT : Float64
  FeeNQT : Float64
  Deadline : Int
  PublicKey : String
  Broadcast : Bool
  Message : String
  MessageIsText : Bool
  MessageToEncrypt : String
  MessageToEncryptIsText : Bool
  EncryptedMessageData : String
  EncryptedMessageNonce : String
  MessageToEncryptToSelf : String
  MessageToEncryptToSelfIsText : Bool
  EncryptToSelfMessageData : String
  EncryptToSelfMessageNonce : String
  RecipientPublicKey : String
  deriving DecidableEq, Repr

/-- The `TransactionResponse` struct; `Tx` is the type of the embedded `Transaction`
object, which `createTransaction` never inspects. -/
structure TransactionResponse (Tx : Type) where
  SignatureHash : String
  UnsignedTransactionBytes : String
  TransactionJSON : Tx
  Broadcasted : Bool
  RequestProcessingTime : Int
  TransactionBytes : String
  FullHash : String
  Transaction : String
  Error : String
  ErrorDescription : String

/-- One invocation of `DoJsonReq`: HTTP method, path and the parameter map. -/
structure JsonCall where
  method : String
  path : String
  params : UrlParams
  deriving DecidableEq, Repr

/-- The transport `c.DoJsonReq`, which is outside this file: given method, path and
parameters it returns the error (`none` for `nil`) and the response object it filled. -/
abbrev Transport (Tx : Type) := String → String → UrlParams → Option String × TransactionResponse Tx

/-- Lines 90-123 of `createTransaction`: the parameter map handed to `DoJsonReq`.
`DEFAULT_DEADLINE` is a package constant declared outside this file. -/
def urlParams (DEFAULT_DEADLINE : Int) (r : TransactionRequest) : UrlParams :=
  let p : UrlParams :=
    [("requestType", r.RequestType),
     ("secretPhrase", r.SecretPhrase),
     ("feeNQT", formatF0 r.FeeNQT)]
  let p := if r.Recipient ≠ "" then mapSet p "recipient" r.Recipient else p
  let p := if r.Recipients ≠ "" then mapSet p "recipients" r.Recipients else p
  let p := if r.AmountNQT.neZero then mapSet p "amountNQT" (formatF0 r.AmountNQT) else p
  let p := if r.Message ≠ "" then
      mapSet (mapSet p "message" r.Message) "messageIsText" (sprintBool r.MessageIsText)
    else p
  let p := if r.MessageToEncrypt ≠ "" then
      mapSet (mapSet p "messageToEncrypt" r.MessageToEncrypt)
        "messageToEncryptIsText" (sprintBool r.MessageToEncryptIsText)
    else p
  let p := if r.Name ≠ "" then mapSet p "name" r.Name else p
  let p := if r.Description ≠ "" then mapSet p "description" r.Description else p
  if r.Deadline = 0 then mapSet p "deadline" (Itoa DEFAULT_DEADLINE)
  else mapSet p "deadline" (Itoa r.Deadline)

/-- The function `createTransaction`: its returned pair `(response, error)` as an
`Except`, and the list of `DoJsonReq` invocations it made, in order. -/
def createTransaction {Tx : Type} (DEFAULT_DEADLINE : Int) (DoJsonReq : Transport Tx)
    (r : TransactionRequest) : Except String (TransactionResponse Tx) × List JsonCall :=
  if r.SecretPhrase = "" then
    (Except.error "TransactionRequest.SecretPhrase is not set", [])
  else
    let p := urlParams DEFAULT_DEADLINE r
    let res := DoJsonReq "POST" "/burst" p
    let calls := [JsonCall.mk "POST" "/burst" p]
    match res.1 with
    | some err => (Except.error ("bad create transaction request: " ++ err), calls)
    | none =>
      if res.2.Error ≠ "" then
        (Except.error ("bad create transaction request: " ++ res.2.Error), calls)
      else if res.2.ErrorDescription ≠ "" then
        (Except.error ("bad create transaction request: " ++ res.2.ErrorDescription), calls)
      else (Except.ok res.2, calls)

/-- Specification wording, not the code: the integer part of `mant * 2^exp`, the
fractional part dropped (truncation toward zero). -/
def truncTowardZero (mant : Nat) : Int → Nat
  | Int.ofNat k => mant * 2 ^ k
  | Int.negSucc k => mant / 2 ^ (k + 1)

/-- A guarded map write, `if c { m[k] = v }`, used to reason about `urlParams`. -/
def setWhen (c : Bool) (m : UrlParams) (k v : String) : UrlParams :=
  if c then mapSet m k v else m

/-! ## Concrete inputs -/

/-- A payment request with a credential, a message and no explicit deadline. -/
def sampleRequest : TransactionRequest where
  RequestType := "sendMoney"
  Recipient := "S-9K9L-4CB5-88Y5-F5G4Z"
  Recipients := ""
  Name := ""
  Description := ""
  SecretPhrase := "correct horse battery staple"
  AmountNQT := Float64.finite false 500000000 0
  FeeNQT := Float64.finite false 735000 0
  Deadline := 0
  PublicKey := ""
  Broadcast := true
  Message := "hello"
  MessageIsText := true
  MessageToEncrypt := ""
  MessageToEncryptIsText := false
  EncryptedMessageData := ""
  EncryptedMessageNonce := ""
  MessageToEncryptToSelf := ""
  MessageToEncryptToSelfIsText := false
  EncryptToSelfMessageData := ""
  EncryptToSelfMessageNonce := ""
  RecipientPublicKey := ""

/-- The request `sampleRequest` with a fee and an amount of 1.5 NQT, the amount in a
different representation of the same value. -/
def halfFeeRequest : TransactionRequest :=
  { sampleRequest with
    FeeNQT := Float64.finite false 3 (-1)
    AmountNQT := Float64.finite false 6 (-2) }

/-- The zero value `TransactionResponse{}` with a trivial transaction object. -/
def zeroResponse : TransactionResponse Unit where
  SignatureHash := ""
  UnsignedTransactionBytes := ""
  TransactionJSON := ()
  Broadcasted := false
  RequestProcessingTime := 0
  TransactionBytes := ""
  FullHash := ""
  Transaction := ""
  Error := ""
  ErrorDescription := ""

/-- A transport whose node answers `{"error":"bad params"}` with HTTP success. -/
def badParamsTransport : Transport Unit :=
  fun _ _ _ => (none, { zeroResponse with Error := "bad params" })

/-- A transport whose node accepts the transaction. -/
def acceptingTransport : Transport Unit :=
  fun _ _ _ => (none, { zeroResponse with Transaction := "7208649924723047009", Broadcasted := true })

end SignumApi

namespace Listener

/-! ## Text normalization (`listener.go`, lines 37-39) -/

/-- Go `unicode.IsSpace`. -/
def isSpace (c : Char) : Bool :=
  let n := c.toNat
  n == 0x09 || n == 0x0A || n == 0x0B || n == 0x0C || n == 0x0D || n == 0x20 ||
  n == 0x85 || n == 0xA0 || n == 0x1680 || (0x2000 ≤ n && n ≤ 0x200A) ||
  n == 0x2028 || n == 0x2029 || n == 0x202F || n == 0x205F || n == 0x3000

/-- Go `strings.TrimSpace` on the runes of a string. -/
def TrimSpace (s : List Char) : List Char :=
  ((s.dropWhile isSpace).reverse.dropWhile isSpace).reverse

/-- The loop of `strings.FieldsFunc`: `start` is the open span (`none` when `start < 0`),
a space closes the open span, a non-space rune opens or extends it. -/
def fieldsLoop : Option (List Char) → List Char → List (List Char)
  | none, [] => []
  | some w, [] => [w]
  | none, c :: cs => if isSpace c then fieldsLoop none cs else fieldsLoop (some [c]) cs
  | some w, c :: cs =>
    if isSpace c then w :: fieldsLoop none cs else fieldsLoop (some (w ++ [c])) cs

/-- Go `strings.Fields`: the maximal runs of non-space runes, in order. -/
def Fields (s : List Char) : List (List Char) := fieldsLoop none s

/-- Go `strings.Join`. -/
def Join : List (List Char) → List Char → List Char
  | [], _ => []
  | [w], _ => w
  | w :: w' :: ws, sep => w ++ sep ++ Join (w' :: ws) sep

/-- The rune-wise action of `strings.Replace(s, ",", ".", -1)`. -/
def commaToPeriod (c : Char) : Char := if c = ',' then '.' else c

/-- Go `strings.Replace(s, ",", ".", -1)`: the pattern is the single rune `,`, so every
occurrence is found rune by rune. -/
def ReplaceCommas (s : List Char) : List Char := s.map commaToPeriod

/-- Lines 37-39: `TrimSpace`, then `Join(Fields(_), " ")`, then `Replace(_, ",", ".", -1)`. -/
def normalizeRunes (s : List Char) : List Char :=
  ReplaceCommas (Join (Fields (TrimSpace s)) [' '])

/-- Lines 37-39 on strings. -/
def normalize (text : String) : String := String.mk (normalizeRunes text.data)

/-- Go `strings.HasPrefix`. -/
def HasPrefix (s p : String) : Bool := p.data.isPrefixOf s.data

/-! ## Data model of `listener.go` -/

/-- The `tgbotapi.Message` fields the listener reads; `Chat` is always set on a message. -/
structure Message where
  ChatID : Int
  Text : String
  deriving DecidableEq, Repr

/-- The `tgbotapi.CallbackQuery` fields the listener reads; `Message` is a pointer. -/
structure CallbackQuery where
  Message : Option Message
  Data : String
  deriving DecidableEq, Repr

/-- The `tgbotapi.Update` fields the listener reads; both are pointers. -/
structure Update where
  Message : Option Message
  CallbackQuery : Option CallbackQuery
  deriving DecidableEq, Repr

/-- The `common.BotMessage` struct: the two fields the listener writes, and the rest. -/
structure BotMessage (Menu Extra : Type) where
  MainText : String
  MainMenu : Menu
  rest : Extra
  deriving DecidableEq

/-- Constants of package `config` used by the listener; they are declared outside
`config.go`. -/
structure Constants where
  COMMAND_START : String
  COMMAND_ADD : String
  COMMAND_DEL : String
  COMMAND_PRICE : String
  COMMAND_CALC : String
  COMMAND_INFO : String
  BUTTON_PRICES : String
  BUTTON_CALC : String
  BUTTON_INFO : String
  NAME : String
  VERSION : String
  INSTRUCTION_TEXT : String
  AUTHOR_TEXT : String

/-- The collaborators of the listener, over a user record of type `σ`: the methods of
`*User`, the price manager, the users manager and the zero `BotMessage`. -/
structure Collaborators (σ Menu Extra : Type) where
  GetUserByChatIdFromUpdate : Update → Option σ
  ResetState : σ → σ
  ProcessAdd : σ → String → σ × String
  ProcessDel : σ → String → σ × String
  ProcessCalc : σ → String → σ × String
  ProcessMessage : σ → String → σ × BotMessage Menu Extra
  ProcessCallback : σ → CallbackQuery → σ × BotMessage Menu Extra
  GetMainMenu : σ → Menu
  GetActualPrices : String
  zeroBotMessage : BotMessage Menu Extra

/-- What one iteration does that is visible outside it, in order. -/
inductive Event (Menu Extra : Type) where
  | Lock
  | Unlock
  | ResetState
  | ProcessAdd (message : String)
  | ProcessDel (message : String)
  | GetActualPrices
  | ProcessCalc (message : String)
  | ProcessMessage (message : String)
  | ProcessCallback (query : CallbackQuery)
  | GetMainMenu
  | SendAnswer (chatID : Int) (answer : BotMessage Menu Extra)
  | nilDereference
  deriving DecidableEq

namespace Event

variable {Menu Extra : Type}

def isLock : Event Menu Extra → Bool
  | Lock => true
  | _ => false

def isUnlock : Event Menu Extra → Bool
  | Unlock => true
  | _ => false

def isResetState : Event Menu Extra → Bool
  | ResetState => true
  | _ => false

def isSendAnswer : Event Menu Extra → Bool
  | SendAnswer _ _ => true
  | _ => false

def isNilDereference : Event Menu Extra → Bool
  | nilDereference => true
  | _ => false

/-- The calls into the user record and the price manager. -/
def isHandler : Event Menu Extra → Bool
  | ProcessAdd _ => true
  | ProcessDel _ => true
  | GetActualPrices => true
  | ProcessCalc _ => true
  | ProcessMessage _ => true
  | ProcessCallback _ => true
  | GetMainMenu => true
  | _ => false

end Event

/-- Whether the session mutex is held after a sequence of events, starting from `held`. -/
def lockHeld {Menu Extra : Type} : Bool → List (Event Menu Extra) → Bool
  | held, [] => held
  | _, Event.Lock :: es => lockHeld true es
  | _, Event.Unlock :: es => lockHeld false es
  | held, _ :: es => lockHeld held es

/-- The branch of the `switch true` (lines 41-65) taken by a normalized text. -/
inductive Branch where
  | start | add | del | price | calc | info | unknownCommand | fallback
  deriving DecidableEq, Repr

/-- Lines 41-65: the cases are tested in order and the first true one is taken. -/
def selectBranch (cfg : Constants) (message : String) : Branch :=
  if HasPrefix message cfg.COMMAND_START then Branch.start
  else if HasPrefix message cfg.COMMAND_ADD then Branch.add
  else if HasPrefix message cfg.COMMAND_DEL then Branch.del
  else if HasPrefix message cfg.COMMAND_PRICE || message == cfg.BUTTON_PRICES then Branch.price
  else if HasPrefix message cfg.COMMAND_CALC || message == cfg.BUTTON_CALC then Branch.calc
  else if HasPrefix message cfg.COMMAND_INFO || message == cfg.BUTTON_INFO then Branch.info
  else if HasPrefix message "/" then Branch.unknownCommand
  else Branch.fallback

/-- The state of one iteration between `user.Lock()` and `user.Unlock()`. -/
structure Locked (σ Menu Extra : Type) where
  user : σ
  userAnswer : BotMessage Menu Extra
  events : List (Event Menu Extra)

/-- Lines 41-65: the body of the selected case, run on the locked user. -/
def runBranch {σ Menu Extra : Type} (cfg : Constants) (env : Collaborators σ Menu Extra)
    (user : σ) (message : String) : Locked σ Menu Extra :=
  let z := env.zeroBotMessage
  match selectBranch cfg message with
  | Branch.start =>
    ⟨env.ResetState user,
     { z with MainText := "Welcome to  " ++ cfg.NAME ++ "\n" ++ cfg.INSTRUCTION_TEXT },
     [Event.ResetState]⟩
  | Branch.add =>
    let r := env.ProcessAdd (env.ResetState user) message
    ⟨r.1, { z with MainText := r.2 }, [Event.ResetState, Event.ProcessAdd message]⟩
  | Branch.del =>
    let r := env.ProcessDel (env.ResetState user) message
    ⟨r.1, { z with MainText := r.2 }, [Event.ResetState, Event.ProcessDel message]⟩
  | Branch.price =>
    ⟨env.ResetState user, { z with MainText := env.GetActualPrices },
     [Event.ResetState, Event.GetActualPrices]⟩
  | Branch.calc =>
    let r := env.ProcessCalc (env.ResetState user) message
    ⟨r.1, { z with MainText := r.2 }, [Event.ResetState, Event.ProcessCalc message]⟩
  | Branch.info =>
    ⟨env.ResetState user,
     { z with MainText := cfg.NAME ++ " " ++ cfg.VERSION ++ "\n" ++
         cfg.INSTRUCTION_TEXT ++ cfg.AUTHOR_TEXT },
     [Event.ResetState]⟩
  | Branch.unknownCommand =>
    ⟨user, { z with MainText := "🚫 Unknown command" }, []⟩
  | Branch.fallback =>
    let r := env.ProcessMessage user message
    ⟨r.1, r.2, [Event.ProcessMessage message]⟩

/-- The outcome of one iteration of the `update` case (lines 24-75): the user record
after it (when one was resolved), the events in order, and whether the goroutine
panicked instead of reaching the next iteration. -/
structure Iteration (σ Menu Extra : Type) where
  user : Option σ
  events : List (Event Menu Extra)
  panicked : Bool

/-- Line 74, `bot.SendAnswer(message.Chat.ID, userAnswer)`: reading `Chat.ID` through a
nil `message` is a nil-pointer dereference. -/
def deliver {Menu Extra : Type} (message : Option Message) (userAnswer : BotMessage Menu Extra) :
    List (Event Menu Extra) × Bool :=
  match message with
  | some m => ([Event.SendAnswer m.ChatID userAnswer], false)
  | none => ([Event.nilDereference], true)

/-- One iteration of the `update` case of `StartBotListener` (lines 24-75). -/
def handleUpdate {σ Menu Extra : Type} (cfg : Constants) (env : Collaborators σ Menu Extra)
    (update : Update) : Iteration σ Menu Extra :=
  match env.GetUserByChatIdFromUpdate update with
  | none => ⟨none, [], false⟩
  | some user =>
    let message := update.Message
    let textBranch : Option String :=
      match message with
      | some m => if m.Text ≠ "" then some m.Text else none
      | none => none
    match textBranch with
    | some text =>
      let b := runBranch cfg env user (normalize text)
      let userAnswer := { b.userAnswer with MainMenu := env.GetMainMenu b.user }
      let d := deliver message userAnswer
      ⟨some b.user,
       [Event.Lock] ++ b.events ++ [Event.GetMainMenu, Event.Unlock] ++ d.1, d.2⟩
    | none =>
      match update.CallbackQuery with
      | some query =>
        let r := env.ProcessCallback user query
        let d := deliver query.Message r.2
        ⟨some r.1, [Event.Lock, Event.ProcessCallback query, Event.Unlock] ++ d.1, d.2⟩
      | none =>
        let d := deliver message env.zeroBotMessage
        ⟨some user, [Event.Lock, Event.Unlock] ++ d.1, d.2⟩

/-- A word: a non-empty run of non-space runes. -/
def IsWord (w : List Char) : Prop := w ≠ [] ∧ ∀ c ∈ w, isSpace c = false

/-- The chat identifier an update carries: that of its message, or, for an update
without a message, that of the message its callback query belongs to. -/
def updateChatID (update : Update) : Option Int :=
  match update.Message with
  | some m => some m.ChatID
  | none =>
    match update.CallbackQuery with
    | some query =>
      match query.Message with
      | some m => some m.ChatID
      | none => none
    | none => none

/-- Modelled from the spec: `usersManager.GetUserByChatIdFromUpdate`, which is declared
outside `listener.go`. The spec delivers an inbound update as a chat identifier with a
text or a callback payload, resolves the owning session from that chat identifier
(`acquire`, which creates the session when absent), and drops an update whose
originating user cannot be resolved. -/
def GetUserByChatIdFromUpdate {σ : Type} (acquire : Int → Option σ) (update : Update) :
    Option σ :=
  match updateChatID update with
  | some chatID => acquire chatID
  | none => none

/-- The condition of the six cases that call `user.ResetState()` (lines 42-57): the text
starts with the start, add, delete, price, calculator or info keyword, or is the label of
the prices, calculator or info button. -/
def matchesKnownCommand (cfg : Constants) (message : String) : Bool :=
  HasPrefix message cfg.COMMAND_START || HasPrefix message cfg.COMMAND_ADD ||
  HasPrefix message cfg.COMMAND_DEL ||
  (HasPrefix message cfg.COMMAND_PRICE || message == cfg.BUTTON_PRICES) ||
  (HasPrefix message cfg.COMMAND_CALC || message == cfg.BUTTON_CALC) ||
  (HasPrefix message cfg.COMMAND_INFO || message == cfg.BUTTON_INFO)

/-! ## Concrete inputs -/

/-- Command keywords and button labels of a deployment. -/
def sampleConstants : Constants where
  COMMAND_START := "/start"
  COMMAND_ADD := "/add"
  COMMAND_DEL := "/del"
  COMMAND_PRICE := "/price"
  COMMAND_CALC := "/calc"
  COMMAND_INFO := "/info"
  BUTTON_PRICES := "💵 Prices"
  BUTTON_CALC := "📃 Calc"
  BUTTON_INFO := "ℹ Info"
  NAME := "Signum Explorer Bot"
  VERSION := "v.0.1"
  INSTRUCTION_TEXT := "Send /add ACCOUNT to watch an account."
  AUTHOR_TEXT := "\nAuthor: unknown"

/-- Collaborators over a user record reduced to its interaction state (0 is idle, any
other number a pending multi-step flow). Every update is resolved to a user who is in the
middle of flow 7; the handlers answer with fixed texts and keep the state. -/
def sampleCollaborators : Collaborators Nat Unit Unit where
  GetUserByChatIdFromUpdate := fun _ => some 7
  ResetState := fun _ => 0
  ProcessAdd := fun s _ => (s, "added")
  ProcessDel := fun s _ => (s, "deleted")
  ProcessCalc := fun s _ => (s, "calculated")
  ProcessMessage := fun s _ => (s, ⟨"flow input accepted", (), ()⟩)
  ProcessCallback := fun s _ => (s, ⟨"callback handled", (), ()⟩)
  GetMainMenu := fun _ => ()
  GetActualPrices := "SIGNA 0.01 USD"
  zeroBotMessage := ⟨"", (), ()⟩

/-- The collaborators `sampleCollaborators` with the users manager resolving sessions by
chat identifier. -/
def resolvingCollaborators : Collaborators Nat Unit Unit :=
  { sampleCollaborators with
    GetUserByChatIdFromUpdate := GetUserByChatIdFromUpdate (fun _ => some 7) }

/-- A text message from chat 42. -/
def textUpdate (text : String) : Update :=
  { Message := some { ChatID := 42, Text := text }, CallbackQuery := none }

/-- A callback-only update from a button under a message in chat 42. -/
def callbackUpdate : Update :=
  { Message := none,
    CallbackQuery := some { Message := some { ChatID := 42, Text := "menu" }, Data := "price" } }

end Listener

/-! # Properties of the transaction gateway -/

namespace SignumApi

theorem mapGet_mapSet (m : UrlParams) (k v k' : String) :
    mapGet (mapSet m k v) k' = if k = k' then some v else mapGet m k' := by
  induction m with
  | nil => simp [mapSet, mapGet]
  | cons kv rest ih =>
    obtain ⟨a, b⟩ := kv
    by_cases hak : a = k
    · subst hak
      by_cases hk : a = k' <;> simp [mapSet, mapGet, hk]
    · by_cases hk : k = k'
      · subst hk
        simp [mapSet, mapGet, hak, ih]
      · by_cases hak' : a = k'
        · subst hak'
          simp [mapSet, mapGet, hak, hk]
        · simp [mapSet, mapGet, hak, hak', hk, ih]

theorem mapGet_cons (k v : String) (rest : UrlParams) (k' : String) :
    mapGet ((k, v) :: rest) k' = if k = k' then some v else mapGet rest k' := rfl

theorem mapGet_nil (k' : String) : mapGet [] k' = none := rfl

theorem mapGet_setWhen (c : Bool) (m : UrlParams) (k v k' : String) :
    mapGet (setWhen c m k v) k' = if c = true ∧ k = k' then some v else mapGet m k' := by
  cases c <;> simp [setWhen, mapGet_mapSet]

/-- The assembled map as a sequence of guarded writes. -/
theorem urlParams_eq (D : Int) (r : TransactionRequest) :
    urlParams D r =
      mapSet
        (setWhen (decide (r.Description ≠ ""))
          (setWhen (decide (r.Name ≠ ""))
            (setWhen (decide (r.MessageToEncrypt ≠ ""))
              (setWhen (decide (r.MessageToEncrypt ≠ ""))
                (setWhen (decide (r.Message ≠ ""))
                  (setWhen (decide (r.Message ≠ ""))
                    (setWhen r.AmountNQT.neZero
                      (setWhen (decide (r.Recipients ≠ ""))
                        (setWhen (decide (r.Recipient ≠ ""))
                          [("requestType", r.RequestType),
                           ("secretPhrase", r.SecretPhrase),
                           ("feeNQT", formatF0 r.FeeNQT)]
                          "recipient" r.Recipient)
                        "recipients" r.Recipients)
                      "amountNQT" (formatF0 r.AmountNQT))
                    "message" r.Message)
                  "messageIsText" (sprintBool r.MessageIsText))
                "messageToEncrypt" r.MessageToEncrypt)
              "messageToEncryptIsText" (sprintBool r.MessageToEncryptIsText))
            "name" r.Name)
          "description" r.Description)
        "deadline" (Itoa (if r.Deadline = 0 then D else r.Deadline)) := by
  unfold urlParams setWhen
  by_cases h1 : r.Recipient = "" <;> by_cases h2 : r.Recipients = "" <;>
  by_cases h3 : r.Message = "" <;> by_cases h4 : r.MessageToEncrypt = "" <;>
  by_cases h5 : r.Name = "" <;> by_cases h6 : r.Description = "" <;>
  by_cases h7 : r.Deadline = 0 <;> cases h8 : r.AmountNQT.neZero <;>
  simp [h1, h2, h3, h4, h5, h6, h7, h8]

/-- With a credential, `createTransaction` calls `DoJsonReq` exactly once, with
`POST`, `/burst` and the assembled map. -/
theorem createTransaction_calls {Tx : Type} (D : Int) (t : Transport Tx)
    (r : TransactionRequest) (h : r.SecretPhrase ≠ "") :
    (createTransaction D t r).2 = [JsonCall.mk "POST" "/burst" (urlParams D r)] := by
  unfold createTransaction
  rw [if_neg h]
  simp only []
  split
  · rfl
  · split_ifs <;> rfl

/-- Without a credential nothing is submitted. -/
theorem createTransaction_no_credential {Tx : Type} (D : Int) (t : Transport Tx)
    (r : TransactionRequest) (h : r.SecretPhrase = "") :
    createTransaction D t r =
      (Except.error "TransactionRequest.SecretPhrase is not set", []) := by
  unfold createTransaction
  rw [if_pos h]

/-- C1: a request whose SecretPhrase is empty makes createTransaction return an error
and no response, and DoJsonReq is invoked zero times, whatever the transport, the
default deadline and the other request fields are. -/
theorem createTransaction_empty_secret {Tx : Type} (D : Int) (t : Transport Tx)
    (r : TransactionRequest) (h : r.SecretPhrase = "") :
    (createTransaction D t r).1 = Except.error "TransactionRequest.SecretPhrase is not set" ∧
    (createTransaction D t r).2 = [] := by
  rw [createTransaction_no_credential D t r h]
  exact ⟨rfl, rfl⟩

/-- C1 at the sample request with its credential blanked and an accepting transport. -/
theorem createTransaction_empty_secret_witness :
    ({ sampleRequest with SecretPhrase := "" } : TransactionRequest).SecretPhrase = "" ∧
    (createTransaction 1440 acceptingTransport { sampleRequest with SecretPhrase := "" }).1 =
      Except.error "TransactionRequest.SecretPhrase is not set" ∧
    (createTransaction 1440 acceptingTransport { sampleRequest with SecretPhrase := "" }).2 = [] :=
  ⟨rfl, createTransaction_empty_secret 1440 acceptingTransport
    { sampleRequest with SecretPhrase := "" } rfl⟩

/-- C2: with a non-empty SecretPhrase, createTransaction makes one network call and
classifies its outcome in order: a failed call gives the error "bad create transaction
request: " followed by the cause; otherwise a non-empty Error field gives an error with
that text (whatever ErrorDescription is); otherwise a non-empty ErrorDescription gives an
error with that description; otherwise the deserialized response is returned unchanged.
A response with error "bad params" yields an error, never success. -/
theorem createTransaction_classification {Tx : Type} (D : Int) (t : Transport Tx)
    (r : TransactionRequest) (h : r.SecretPhrase ≠ "") :
    (createTransaction D t r).2.length = 1 ∧
    (∀ cause, (t "POST" "/burst" (urlParams D r)).1 = some cause →
      (createTransaction D t r).1 =
        Except.error ("bad create transaction request: " ++ cause)) ∧
    ((t "POST" "/burst" (urlParams D r)).1 = none →
      (t "POST" "/burst" (urlParams D r)).2.Error ≠ "" →
      (createTransaction D t r).1 =
        Except.error ("bad create transaction request: " ++
          (t "POST" "/burst" (urlParams D r)).2.Error)) ∧
    ((t "POST" "/burst" (urlParams D r)).1 = none →
      (t "POST" "/burst" (urlParams D r)).2.Error = "" →
      (t "POST" "/burst" (urlParams D r)).2.ErrorDescription ≠ "" →
      (createTransaction D t r).1 =
        Except.error ("bad create transaction request: " ++
          (t "POST" "/burst" (urlParams D r)).2.ErrorDescription)) ∧
    ((t "POST" "/burst" (urlParams D r)).1 = none →
      (t "POST" "/burst" (urlParams D r)).2.Error = "" →
      (t "POST" "/burst" (urlParams D r)).2.ErrorDescription = "" →
      (createTransaction D t r).1 = Except.ok (t "POST" "/burst" (urlParams D r)).2) ∧
    ((t "POST" "/burst" (urlParams D r)).1 = none →
      (t "POST" "/burst" (urlParams D r)).2.Error = "bad params" →
      (createTransaction D t r).1 =
        Except.error "bad create transaction request: bad params") := by
  refine ⟨by rw [createTransaction_calls D t r h]; rfl, ?_, ?_, ?_, ?_, ?_⟩
  · intro cause hc
    unfold createTransaction
    rw [if_neg h]
    simp only [hc]
  · intro hn he
    unfold createTransaction
    rw [if_neg h]
    simp only [hn, if_pos he]
  · intro hn he hd
    unfold createTransaction
    rw [if_neg h]
    simp only [hn, he, ne_eq, not_true_eq_false, if_false, if_pos hd]
  · intro hn he hd
    unfold createTransaction
    rw [if_neg h]
    simp only [hn, he, hd, ne_eq, not_true_eq_false, if_false]
  · intro hn he
    unfold createTransaction
    rw [if_neg h]
    have hne : (t "POST" "/burst" (urlParams D r)).2.Error ≠ "" := by
      rw [he]; decide
    simp only [hn, if_pos hne]
    rw [he]
    rfl

/-- C2 at the sample request and a node that answers with error "bad params". -/
theorem createTransaction_classification_witness :
    sampleRequest.SecretPhrase ≠ "" ∧
    (createTransaction 1440 badParamsTransport sampleRequest).1 =
      Except.error "bad create transaction request: bad params" :=
  ⟨by decide,
   (createTransaction_classification 1440 badParamsTransport sampleRequest
      (by decide)).2.2.2.2.2 rfl rfl⟩

/-- C3: with a non-empty SecretPhrase, the map handed to DoJsonReq holds each optional
parameter exactly when its request field is non-default, with the field copied verbatim:
recipient, recipients, name and description when non-empty, amountNQT when AmountNQT != 0,
message with messageIsText when Message is non-empty, messageToEncrypt with
messageToEncryptIsText when MessageToEncrypt is non-empty; the is-text flags are "true"
or "false" according to the request's boolean. -/
theorem urlParams_optional {Tx : Type} (D : Int) (t : Transport Tx) (r : TransactionRequest)
    (h : r.SecretPhrase ≠ "") :
    (createTransaction D t r).2 = [JsonCall.mk "POST" "/burst" (urlParams D r)] ∧
    mapGet (urlParams D r) "recipient" = (if r.Recipient = "" then none else some r.Recipient) ∧
    mapGet (urlParams D r) "recipients" =
      (if r.Recipients = "" then none else some r.Recipients) ∧
    mapGet (urlParams D r) "amountNQT" =
      (if r.AmountNQT.neZero = true then some (formatF0 r.AmountNQT) else none) ∧
    mapGet (urlParams D r) "message" = (if r.Message = "" then none else some r.Message) ∧
    mapGet (urlParams D r) "messageIsText" =
      (if r.Message = "" then none
       else some (if r.MessageIsText = true then "true" else "false")) ∧
    mapGet (urlParams D r) "messageToEncrypt" =
      (if r.MessageToEncrypt = "" then none else some r.MessageToEncrypt) ∧
    mapGet (urlParams D r) "messageToEncryptIsText" =
      (if r.MessageToEncrypt = "" then none
       else some (if r.MessageToEncryptIsText = true then "true" else "false")) ∧
    mapGet (urlParams D r) "name" = (if r.Name = "" then none else some r.Name) ∧
    mapGet (urlParams D r) "description" =
      (if r.Description = "" then none else some r.Description) := by
  refine ⟨createTransaction_calls D t r h, ?_, ?_, ?_, ?_, ?_, ?_, ?_, ?_, ?_⟩ <;>
  · rw [urlParams_eq]
    simp only [mapGet_mapSet, mapGet_setWhen, mapGet_cons, mapGet_nil]
    simp [sprintBool]

/-- C3 at the sample request: recipient and message flag present, recipients absent. -/
theorem urlParams_optional_witness :
    sampleRequest.SecretPhrase ≠ "" ∧
    mapGet (urlParams 1440 sampleRequest) "recipient" = some "S-9K9L-4CB5-88Y5-F5G4Z" ∧
    mapGet (urlParams 1440 sampleRequest) "recipients" = none ∧
    mapGet (urlParams 1440 sampleRequest) "messageIsText" = some "true" :=
  ⟨by decide,
   (urlParams_optional 1440 acceptingTransport sampleRequest (by decide)).2.1,
   (urlParams_optional 1440 acceptingTransport sampleRequest (by decide)).2.2.1,
   (urlParams_optional 1440 acceptingTransport sampleRequest (by decide)).2.2.2.2.2.1⟩

/-- C4: with a non-empty SecretPhrase, the map handed to DoJsonReq always holds
requestType (the request kind), secretPhrase (the credential, verbatim), feeNQT and
deadline; deadline is the decimal rendering of the request's Deadline when that is not 0
and of DEFAULT_DEADLINE when it is 0. -/
theorem urlParams_mandatory {Tx : Type} (D : Int) (t : Transport Tx) (r : TransactionRequest)
    (h : r.SecretPhrase ≠ "") :
    (createTransaction D t r).2 = [JsonCall.mk "POST" "/burst" (urlParams D r)] ∧
    mapGet (urlParams D r) "requestType" = some r.RequestType ∧
    mapGet (urlParams D r) "secretPhrase" = some r.SecretPhrase ∧
    mapGet (urlParams D r) "feeNQT" = some (formatF0 r.FeeNQT) ∧
    (r.Deadline ≠ 0 → mapGet (urlParams D r) "deadline" = some (Itoa r.Deadline)) ∧
    (r.Deadline = 0 → mapGet (urlParams D r) "deadline" = some (Itoa D)) := by
  refine ⟨createTransaction_calls D t r h, ?_, ?_, ?_, ?_, ?_⟩
  · rw [urlParams_eq]
    simp only [mapGet_mapSet, mapGet_setWhen, mapGet_cons, mapGet_nil]
    simp
  · rw [urlParams_eq]
    simp only [mapGet_mapSet, mapGet_setWhen, mapGet_cons, mapGet_nil]
    simp
  · rw [urlParams_eq]
    simp only [mapGet_mapSet, mapGet_setWhen, mapGet_cons, mapGet_nil]
    simp
  · intro hd
    rw [urlParams_eq, mapGet_mapSet, if_pos rfl, if_neg hd]
  · intro hd
    rw [urlParams_eq, mapGet_mapSet, if_pos rfl, if_pos hd]

/-- C4 at the sample request with default deadline 1440. -/
theorem urlParams_mandatory_witness :
    sampleRequest.SecretPhrase ≠ "" ∧
    mapGet (urlParams 1440 sampleRequest) "requestType" = some "sendMoney" ∧
    mapGet (urlParams 1440 sampleRequest) "secretPhrase" =
      some "correct horse battery staple" ∧
    mapGet (urlParams 1440 sampleRequest) "feeNQT" = some "735000" ∧
    mapGet (urlParams 1440 sampleRequest) "deadline" = some "1440" :=
  ⟨by decide,
   (urlParams_mandatory 1440 acceptingTransport sampleRequest (by decide)).2.1,
   (urlParams_mandatory 1440 acceptingTransport sampleRequest (by decide)).2.2.1,
   (urlParams_mandatory 1440 acceptingTransport sampleRequest (by decide)).2.2.2.1,
   (urlParams_mandatory 1440 acceptingTransport sampleRequest (by decide)).2.2.2.2.2 rfl⟩

/-- C10: the parameters createTransaction assembles do not depend on Broadcast, PublicKey,
RecipientPublicKey or the pre-encrypted and encrypt-to-self fields: two requests that
agree on RequestType, SecretPhrase, FeeNQT, Recipient, Recipients, AmountNQT, Message,
MessageIsText, MessageToEncrypt, MessageToEncryptIsText, Name, Description and Deadline
give identical parameter maps and identical DoJsonReq invocations. -/
theorem urlParams_ignores_unused_fields {Tx : Type} (D : Int) (t t' : Transport Tx)
    (r r' : TransactionRequest)
    (h1 : r.RequestType = r'.RequestType) (h2 : r.SecretPhrase = r'.SecretPhrase)
    (h3 : r.FeeNQT = r'.FeeNQT) (h4 : r.Recipient = r'.Recipient)
    (h5 : r.Recipients = r'.Recipients) (h6 : r.AmountNQT = r'.AmountNQT)
    (h7 : r.Message = r'.Message) (h8 : r.MessageIsText = r'.MessageIsText)
    (h9 : r.MessageToEncrypt = r'.MessageToEncrypt)
    (h10 : r.MessageToEncryptIsText = r'.MessageToEncryptIsText)
    (h11 : r.Name = r'.Name) (h12 : r.Description = r'.Description)
    (h13 : r.Deadline = r'.Deadline) :
    urlParams D r = urlParams D r' ∧
    (createTransaction D t r).2 = (createTransaction D t' r').2 := by
  have hp : urlParams D r = urlParams D r' := by
    rw [urlParams_eq, urlParams_eq, h1, h2, h3, h4, h5, h6, h7, h8, h9, h10, h11, h12, h13]
  refine ⟨hp, ?_⟩
  by_cases hs : r.SecretPhrase = ""
  · rw [createTransaction_no_credential D t r hs,
      createTransaction_no_credential D t' r' (h2 ▸ hs)]
  · rw [createTransaction_calls D t r hs, createTransaction_calls D t' r' (h2 ▸ hs), hp]

/-- C10 at the sample request and its copy with Broadcast set to false. -/
theorem urlParams_ignores_unused_fields_witness :
    urlParams 1440 sampleRequest = urlParams 1440 { sampleRequest with Broadcast := false } ∧
    (createTransaction 1440 acceptingTransport sampleRequest).2 =
      (createTransaction 1440 badParamsTransport { sampleRequest with Broadcast := false }).2 :=
  urlParams_ignores_unused_fields 1440 acceptingTransport badParamsTransport sampleRequest
    { sampleRequest with Broadcast := false } rfl rfl rfl rfl rfl rfl rfl rfl rfl rfl rfl rfl rfl

/-! ## Fee and amount formatting -/

/-- The rounding of `%.f` yields an integer within one half of the value, and the even
one when the value lies exactly half way. -/
theorem roundHalfEven_nearest (m : Nat) (e : Int) :
    |(roundHalfEven m e : ℚ) - (m : ℚ) * (2 : ℚ) ^ e| ≤ 1 / 2 ∧
    (|(roundHalfEven m e : ℚ) - (m : ℚ) * (2 : ℚ) ^ e| = 1 / 2 → Even (roundHalfEven m e)) := by
  cases e with
  | ofNat k =>
    have h0 : ((m * 2 ^ k : ℕ) : ℚ) - (m : ℚ) * (2 : ℚ) ^ (Int.ofNat k) = 0 := by
      simp
    simp only [roundHalfEven]
    rw [h0]
    constructor
    · norm_num
    · intro h
      norm_num at h
  | negSucc k =>
    simp only [roundHalfEven]
    generalize hd : 2 ^ (k + 1) = d
    have hdpos : 0 < d := by rw [← hd]; positivity
    have hdq : (0 : ℚ) < (d : ℚ) := by exact_mod_cast hdpos
    have hr : m % d < d := Nat.mod_lt _ hdpos
    have hm : (m : ℚ) = (d : ℚ) * ((m / d : ℕ) : ℚ) + ((m % d : ℕ) : ℚ) := by
      exact_mod_cast (Nat.div_add_mod m d).symm
    have hv : (m : ℚ) * (2 : ℚ) ^ (Int.negSucc k) =
        ((m / d : ℕ) : ℚ) + ((m % d : ℕ) : ℚ) / (d : ℚ) := by
      have h2 : ((2 : ℚ) ^ (k + 1)) = (d : ℚ) := by exact_mod_cast hd
      rw [zpow_negSucc, h2]
      field_simp
      linarith
    rw [hv]
    generalize m / d = q at *
    generalize m % d = r at *
    have hx0 : (0 : ℚ) ≤ (r : ℚ) / d := by positivity
    by_cases hc : d < 2 * r ∨ (2 * r = d ∧ q % 2 = 1)
    · rw [if_pos hc]
      rcases hc with hc | ⟨hc, hodd⟩
      · have hc' : (d : ℚ) < 2 * r := by exact_mod_cast hc
        have hx : (1 : ℚ) / 2 < (r : ℚ) / d := by
          rw [lt_div_iff₀ hdq]; linarith
        have hx1 : (r : ℚ) / d < 1 := by
          rw [div_lt_one hdq]; exact_mod_cast hr
        have habs : |((q + 1 : ℕ) : ℚ) - ((q : ℚ) + (r : ℚ) / d)| = 1 - (r : ℚ) / d := by
          rw [abs_of_nonneg] <;> push_cast <;> linarith
        rw [habs]
        constructor
        · linarith
        · intro h; linarith
      · have hc' : (2 : ℚ) * r = d := by exact_mod_cast hc
        have hx : (r : ℚ) / d = 1 / 2 := by
          rw [div_eq_iff (ne_of_gt hdq)]; linarith
        rw [hx]
        have habs : |((q + 1 : ℕ) : ℚ) - ((q : ℚ) + 1 / 2)| = 1 / 2 := by
          rw [abs_of_nonneg] <;> push_cast <;> linarith
        rw [habs]
        refine ⟨le_refl _, fun _ => ?_⟩
        rw [Nat.even_iff]; omega
    · rw [if_neg hc]
      push_neg at hc
      obtain ⟨hc1, hc2⟩ := hc
      have hc' : (2 : ℚ) * r ≤ d := by exact_mod_cast hc1
      have hx : (r : ℚ) / d ≤ 1 / 2 := by
        rw [div_le_iff₀ hdq]; linarith
      have habs : |(q : ℚ) - ((q : ℚ) + (r : ℚ) / d)| = (r : ℚ) / d := by
        rw [abs_of_nonpos] <;> linarith
      rw [habs]
      refine ⟨hx, fun h => ?_⟩
      have h2 : 2 * r = d := by
        have : (2 : ℚ) * r = d := by
          rw [div_eq_iff (ne_of_gt hdq)] at h; linarith
        exact_mod_cast this
      have := hc2 h2
      rw [Nat.even_iff]; omega

/-- At most one integer is nearest-with-ties-to-even to a given rational. -/
theorem nearest_even_unique (v : ℚ) (a b : ℕ)
    (ha : |(a : ℚ) - v| ≤ 1 / 2) (ha' : |(a : ℚ) - v| = 1 / 2 → Even a)
    (hb : |(b : ℚ) - v| ≤ 1 / 2) (hb' : |(b : ℚ) - v| = 1 / 2 → Even b) : a = b := by
  rw [abs_le] at ha hb
  by_contra hne
  rcases Nat.lt_or_gt_of_ne hne with hlt | hlt
  · have h1 : (a : ℚ) + 1 ≤ b := by exact_mod_cast hlt
    have hav : (a : ℚ) - v = -(1 / 2) := by linarith
    have hbv : (b : ℚ) - v = 1 / 2 := by linarith
    have hab : (b : ℚ) = a + 1 := by linarith
    have hab' : b = a + 1 := by exact_mod_cast hab
    have ea := ha' (by rw [hav]; norm_num)
    have eb := hb' (by rw [hbv]; norm_num)
    rw [Nat.even_iff] at ea eb
    omega
  · have h1 : (b : ℚ) + 1 ≤ a := by exact_mod_cast hlt
    have hav : (a : ℚ) - v = 1 / 2 := by linarith
    have hbv : (b : ℚ) - v = -(1 / 2) := by linarith
    have hab : (a : ℚ) = b + 1 := by linarith
    have hab' : a = b + 1 := by exact_mod_cast hab
    have ea := ha' (by rw [hav]; norm_num)
    have eb := hb' (by rw [hbv]; norm_num)
    rw [Nat.even_iff] at ea eb
    omega

/-- The rounding of `%.f` depends on the value only, not on its representation. -/
theorem roundHalfEven_congr (m m' : Nat) (e e' : Int)
    (h : (m : ℚ) * (2 : ℚ) ^ e = (m' : ℚ) * (2 : ℚ) ^ e') :
    roundHalfEven m e = roundHalfEven m' e' := by
  have a := roundHalfEven_nearest m e
  have b := roundHalfEven_nearest m' e'
  rw [← h] at b
  exact nearest_even_unique _ _ _ a.1 a.2 b.1 b.2

/-- The doubles nearest to 12.9 and 5.4 are formatted as "13" and "5"; 2.5 goes to the
even neighbour "2"; a negative value that rounds to zero keeps its sign. -/
theorem formatF0_examples :
    formatF0 (Float64.finite false 7262054399134925 (-49)) = "13" ∧
    formatF0 (Float64.finite false 3039929748475085 (-49)) = "5" ∧
    formatF0 (Float64.finite false 5 (-1)) = "2" ∧
    formatF0 (Float64.finite true 1 (-1)) = "-0" := by
  decide

theorem formatF0_nonneg (m : Nat) (e : Int) :
    formatF0 (Float64.finite false m e) = Nat.repr (roundHalfEven m e) := by
  simp [formatF0]

/-- C5 (as stated, refuted): for the request `halfFeeRequest`, which has a credential and
the finite non-negative fee 1.5, the submitted feeNQT is "2", whereas truncation toward
zero gives "1". -/
theorem feeNQT_not_truncated :
    halfFeeRequest.SecretPhrase ≠ "" ∧
    halfFeeRequest.FeeNQT = Float64.finite false 3 (-1) ∧
    halfFeeRequest.FeeNQT.isDouble = true ∧
    halfFeeRequest.FeeNQT.absRat = 3 / 2 ∧
    mapGet (urlParams 1440 halfFeeRequest) "feeNQT" = some "2" ∧
    Nat.repr (truncTowardZero 3 (-1)) = "1" ∧
    mapGet (urlParams 1440 halfFeeRequest) "feeNQT" ≠
      some (Nat.repr (truncTowardZero 3 (-1))) := by
  refine ⟨by decide, rfl, by decide, ?_, by decide, by decide, by decide⟩
  simp only [halfFeeRequest, Float64.absRat]
  norm_num

/-- C5 (amended): with a non-empty SecretPhrase and a finite non-negative fee, feeNQT is
the decimal string of the integer nearest to the fee, the even one of the two when the
fee lies exactly half way (it is rounded, not truncated); a non-zero AmountNQT is
rendered into amountNQT by the same formatter, so an amount equal in value to the fee
gives the same string. -/
theorem feeNQT_rounds_half_even {Tx : Type} (D : Int) (t : Transport Tx)
    (r : TransactionRequest) (m : Nat) (e : Int)
    (h : r.SecretPhrase ≠ "") (hf : r.FeeNQT = Float64.finite false m e) :
    (createTransaction D t r).2 = [JsonCall.mk "POST" "/burst" (urlParams D r)] ∧
    mapGet (urlParams D r) "feeNQT" = some (Nat.repr (roundHalfEven m e)) ∧
    |(roundHalfEven m e : ℚ) - r.FeeNQT.absRat| ≤ 1 / 2 ∧
    (|(roundHalfEven m e : ℚ) - r.FeeNQT.absRat| = 1 / 2 → Even (roundHalfEven m e)) ∧
    (r.AmountNQT.neZero = true →
      mapGet (urlParams D r) "amountNQT" = some (formatF0 r.AmountNQT)) ∧
    (∀ (m' : Nat) (e' : Int), r.AmountNQT = Float64.finite false m' e' →
      r.AmountNQT.neZero = true → r.AmountNQT.absRat = r.FeeNQT.absRat →
      mapGet (urlParams D r) "amountNQT" = mapGet (urlParams D r) "feeNQT") := by
  have hfee : mapGet (urlParams D r) "feeNQT" = some (Nat.repr (roundHalfEven m e)) := by
    rw [urlParams_eq]
    simp only [mapGet_mapSet, mapGet_setWhen, mapGet_cons, mapGet_nil]
    simp [hf, formatF0_nonneg]
  have hamt : r.AmountNQT.neZero = true →
      mapGet (urlParams D r) "amountNQT" = some (formatF0 r.AmountNQT) := by
    intro hz
    rw [urlParams_eq]
    simp only [mapGet_mapSet, mapGet_setWhen, mapGet_cons, mapGet_nil]
    simp [hz]
  have hn := roundHalfEven_nearest m e
  refine ⟨createTransaction_calls D t r h, hfee, ?_, ?_, hamt, ?_⟩
  · rw [hf]; exact hn.1
  · rw [hf]; exact hn.2
  · intro m' e' ha hz hv
    rw [hamt hz, hfee, ha, formatF0_nonneg]
    rw [ha, hf] at hv
    rw [roundHalfEven_congr m' m e' e hv]

/-- C5 (amended) at a fee and an amount of 1.5: both are submitted as "2". -/
theorem feeNQT_rounds_half_even_witness :
    halfFeeRequest.SecretPhrase ≠ "" ∧
    halfFeeRequest.FeeNQT = Float64.finite false 3 (-1) ∧
    mapGet (urlParams 1440 halfFeeRequest) "feeNQT" = some "2" ∧
    mapGet (urlParams 1440 halfFeeRequest) "amountNQT" = some "2" :=
  ⟨by decide, rfl,
   (feeNQT_rounds_half_even 1440 acceptingTransport halfFeeRequest 3 (-1)
      (by decide) rfl).2.1,
   (feeNQT_rounds_half_even 1440 acceptingTransport halfFeeRequest 3 (-1)
      (by decide) rfl).2.2.2.2.1 (by decide)⟩

end SignumApi

/-! # Properties of the update dispatcher -/

namespace Listener

/-! ## Normalization lemmas -/

theorem isSpace_space : isSpace ' ' = true := by decide

theorem isSpace_commaToPeriod (c : Char) : isSpace (commaToPeriod c) = isSpace c := by
  unfold commaToPeriod
  split_ifs with h
  · subst h; decide
  · rfl

theorem commaToPeriod_ne_comma (c : Char) : commaToPeriod c ≠ ',' := by
  unfold commaToPeriod
  split_ifs with h
  · decide
  · exact h

theorem commaToPeriod_idem (c : Char) : commaToPeriod (commaToPeriod c) = commaToPeriod c := by
  have h := commaToPeriod_ne_comma c
  generalize commaToPeriod c = d at h ⊢
  unfold commaToPeriod
  rw [if_neg h]

theorem fieldsLoop_some (w s : List Char) :
    fieldsLoop (some w) s =
      (w ++ s.takeWhile (fun x => !isSpace x)) ::
        fieldsLoop none (s.dropWhile (fun x => !isSpace x)) := by
  induction s generalizing w with
  | nil => simp [fieldsLoop]
  | cons c cs ih =>
    cases h : isSpace c with
    | true => simp [fieldsLoop, h]
    | false => simp [fieldsLoop, h, ih]

theorem Fields_nil : Fields [] = [] := rfl

theorem Fields_cons_space (c : Char) (cs : List Char) (h : isSpace c = true) :
    Fields (c :: cs) = Fields cs := by
  simp [Fields, fieldsLoop, h]

theorem Fields_cons_word (c : Char) (cs : List Char) (h : isSpace c = false) :
    Fields (c :: cs) =
      (c :: cs.takeWhile (fun x => !isSpace x)) :: Fields (cs.dropWhile (fun x => !isSpace x)) := by
  simp [Fields, fieldsLoop, h, fieldsLoop_some]

/-- Induction along the fields of a string. -/
theorem Fields_induction (P : List Char → Prop) (hnil : P [])
    (hspace : ∀ c cs, isSpace c = true → P cs → P (c :: cs))
    (hword : ∀ c cs, isSpace c = false → P (cs.dropWhile (fun x => !isSpace x)) → P (c :: cs))
    (s : List Char) : P s := by
  have key : ∀ n, ∀ s : List Char, s.length ≤ n → P s := by
    intro n
    induction n with
    | zero =>
      intro s hs
      have : s = [] := List.length_eq_zero.mp (Nat.le_zero.mp hs)
      rw [this]; exact hnil
    | succ n ih =>
      intro s hs
      cases s with
      | nil => exact hnil
      | cons c cs =>
        have hcs : cs.length ≤ n := by simpa using hs
        cases h : isSpace c with
        | true => exact hspace c cs h (ih cs hcs)
        | false =>
          refine hword c cs h (ih _ ?_)
          have := (List.dropWhile_sublist (fun x => !isSpace x) (l := cs)).length_le
          omega
  exact key s.length s (le_refl _)

theorem takeWhile_append_stop (p : Char → Bool) (l : List Char) (a : Char) (t : List Char)
    (h : p a = false) :
    (l ++ a :: t).takeWhile p = l.takeWhile p ∧
    (l ++ a :: t).dropWhile p = l.dropWhile p ++ a :: t := by
  induction l with
  | nil => simp [h]
  | cons b l ih =>
    cases hb : p b with
    | true => simp [hb, ih]
    | false => simp [hb]

theorem takeWhile_all (p : Char → Bool) (l : List Char) (h : ∀ c ∈ l, p c = true) :
    l.takeWhile p = l ∧ l.dropWhile p = [] := by
  induction l with
  | nil => simp
  | cons b l ih =>
    have hb : p b = true := h b (by simp)
    have := ih (fun c hc => h c (by simp [hc]))
    simp [hb, this]

theorem Fields_append_space (s : List Char) (c : Char) (h : isSpace c = true) :
    Fields (s ++ [c]) = Fields s := by
  induction s using Fields_induction with
  | hnil => rw [List.nil_append, Fields_cons_space c [] h]
  | hspace c0 cs h0 ih =>
    rw [List.cons_append, Fields_cons_space _ _ h0, Fields_cons_space _ _ h0, ih]
  | hword c0 cs h0 ih =>
    have hp : (fun x => !isSpace x) c = false := by simp [h]
    have := takeWhile_append_stop (fun x => !isSpace x) cs c [] hp
    rw [List.cons_append, Fields_cons_word _ _ h0, Fields_cons_word _ _ h0, this.1, this.2, ih]

theorem Fields_dropWhile (s : List Char) : Fields (s.dropWhile isSpace) = Fields s := by
  induction s with
  | nil => rfl
  | cons c cs ih =>
    cases h : isSpace c with
    | true => rw [List.dropWhile_cons_of_pos h, ih, Fields_cons_space c cs h]
    | false => rw [List.dropWhile_cons_of_neg (by simp [h])]

theorem Fields_rdropWhile (s : List Char) : Fields (s.rdropWhile isSpace) = Fields s := by
  induction s using List.reverseRecOn with
  | nil => rfl
  | append_singleton l a ih =>
    cases h : isSpace a with
    | true => rw [List.rdropWhile_concat_pos _ _ _ h, ih, Fields_append_space l a h]
    | false => rw [List.rdropWhile_concat_neg _ _ _ (by simp [h])]

theorem Fields_TrimSpace (s : List Char) : Fields (TrimSpace s) = Fields s := by
  have : TrimSpace s = (s.dropWhile isSpace).rdropWhile isSpace := rfl
  rw [this, Fields_rdropWhile, Fields_dropWhile]

theorem Fields_words (s : List Char) : ∀ w ∈ Fields s, IsWord w := by
  induction s using Fields_induction with
  | hnil => intro w hw; simp [Fields_nil] at hw
  | hspace c cs h ih => rw [Fields_cons_space _ _ h]; exact ih
  | hword c cs h ih =>
    rw [Fields_cons_word _ _ h]
    intro w hw
    rcases List.mem_cons.mp hw with rfl | hw
    · refine ⟨by simp, ?_⟩
      intro x hx
      rcases List.mem_cons.mp hx with rfl | hx
      · exact h
      · have := @List.mem_takeWhile_imp _ (fun x => !isSpace x) _ _ hx
        simpa using this
    · exact ih w hw

theorem Fields_join (s : List Char) :
    (Fields s).flatten = s.filter (fun x => !isSpace x) := by
  induction s using Fields_induction with
  | hnil => rfl
  | hspace c cs h ih => rw [Fields_cons_space _ _ h, ih]; simp [h]
  | hword c cs h ih =>
    rw [Fields_cons_word _ _ h, List.flatten_cons, ih]
    have hsplit := List.takeWhile_append_dropWhile (fun x => !isSpace x) cs
    have htw : (cs.takeWhile (fun x => !isSpace x)).filter (fun x => !isSpace x) =
        cs.takeWhile (fun x => !isSpace x) := by
      rw [List.filter_eq_self]
      intro a ha
      exact @List.mem_takeWhile_imp _ (fun x => !isSpace x) _ _ ha
    have e : cs.filter (fun x => !isSpace x) =
        cs.takeWhile (fun x => !isSpace x) ++
          (cs.dropWhile (fun x => !isSpace x)).filter (fun x => !isSpace x) := by
      conv_lhs => rw [← hsplit]
      rw [List.filter_append, htw]
    rw [List.filter_cons_of_pos (by simp [h]), e]
    rfl

/-- A word followed by nothing or by a space is the first field. -/
theorem Fields_word_append (w t : List Char) (hw : IsWord w)
    (ht : t = [] ∨ ∃ a t', t = a :: t' ∧ isSpace a = true) :
    Fields (w ++ t) = w :: Fields t := by
  obtain ⟨hne, hall⟩ := hw
  cases w with
  | nil => exact absurd rfl hne
  | cons c w' =>
    have hc : isSpace c = false := hall c (by simp)
    have hw' : ∀ x ∈ w', (fun x => !isSpace x) x = true := by
      intro x hx
      simp [hall x (by simp [hx])]
    rw [List.cons_append, Fields_cons_word _ _ hc]
    rcases ht with rfl | ⟨a, t', rfl, ha⟩
    · have := takeWhile_all _ w' hw'
      rw [List.append_nil, this.1, this.2]
    · have hp : (fun x => !isSpace x) a = false := by simp [ha]
      have h1 := takeWhile_append_stop (fun x => !isSpace x) w' a t' hp
      have h2 := takeWhile_all _ w' hw'
      rw [h1.1, h1.2, h2.1, h2.2, List.nil_append]

theorem Join_cons_cons (w w' : List Char) (ws : List (List Char)) (sep : List Char) :
    Join (w :: w' :: ws) sep = w ++ (sep ++ Join (w' :: ws) sep) := by
  simp [Join]

theorem Join_ne_nil (w : List Char) (ws : List (List Char)) (sep : List Char) (hw : w ≠ []) :
    Join (w :: ws) sep ≠ [] := by
  cases ws with
  | nil => simpa [Join] using hw
  | cons w' ws => rw [Join_cons_cons]; simp [hw]

theorem Join_head (w : List Char) (ws : List (List Char)) (sep : List Char) (hw : w ≠ []) :
    (Join (w :: ws) sep).head? = w.head? := by
  cases w with
  | nil => exact absurd rfl hw
  | cons c w =>
    cases ws with
    | nil => simp [Join]
    | cons w' ws => rw [Join_cons_cons]; simp

theorem Join_map (f : Char → Char) (ws : List (List Char)) (sep : List Char) :
    (Join ws sep).map f = Join (ws.map (List.map f)) (sep.map f) := by
  induction ws with
  | nil => simp [Join]
  | cons w ws ih =>
    cases ws with
    | nil => simp [Join]
    | cons w' ws =>
      rw [Join_cons_cons, List.map_cons, List.map_cons, Join_cons_cons, List.map_append,
        List.map_append, ih]
      simp

theorem mem_Join (c : Char) (ws : List (List Char)) (sep : List Char) (h : c ∈ Join ws sep) :
    (∃ w ∈ ws, c ∈ w) ∨ c ∈ sep := by
  induction ws with
  | nil => simp [Join] at h
  | cons w ws ih =>
    cases ws with
    | nil => left; exact ⟨w, by simp, by simpa [Join] using h⟩
    | cons w' ws =>
      rw [Join_cons_cons] at h
      rcases List.mem_append.mp h with h | h
      · left; exact ⟨w, by simp, h⟩
      · rcases List.mem_append.mp h with h | h
        · right; exact h
        · rcases ih h with ⟨x, hx, hc⟩ | hs
          · left; exact ⟨x, by simp [hx], hc⟩
          · right; exact hs

theorem Fields_Join (ws : List (List Char)) (h : ∀ w ∈ ws, IsWord w) :
    Fields (Join ws [' ']) = ws := by
  induction ws with
  | nil => rfl
  | cons w ws ih =>
    have hw : IsWord w := h w (by simp)
    cases ws with
    | nil =>
      have := Fields_word_append w [] hw (Or.inl rfl)
      simpa [Join, Fields_nil] using this
    | cons w' ws =>
      have ih' := ih (fun x hx => h x (by simp [hx]))
      rw [Join_cons_cons, List.singleton_append,
        Fields_word_append w _ hw (Or.inr ⟨' ', _, rfl, isSpace_space⟩),
        Fields_cons_space _ _ isSpace_space, ih']

theorem Join_filter (ws : List (List Char)) (h : ∀ w ∈ ws, IsWord w) :
    (Join ws [' ']).filter (fun x => !isSpace x) = ws.flatten := by
  induction ws with
  | nil => rfl
  | cons w ws ih =>
    have hw : w.filter (fun x => !isSpace x) = w := by
      rw [List.filter_eq_self]
      intro a ha
      simp [(h w (by simp)).2 a ha]
    cases ws with
    | nil => simpa [Join] using hw
    | cons w' ws =>
      have ih' := ih (fun x hx => h x (by simp [hx]))
      rw [Join_cons_cons, List.filter_append, List.filter_append, ih', hw]
      simp [isSpace_space]

theorem Join_last (ws : List (List Char)) (h : ∀ w ∈ ws, IsWord w) (c : Char)
    (hc : (Join ws [' ']).getLast? = some c) : isSpace c = false := by
  induction ws with
  | nil => simp [Join] at hc
  | cons w ws ih =>
    cases ws with
    | nil =>
      have : c ∈ w := List.mem_of_getLast?_eq_some (by simpa [Join] using hc)
      exact (h w (by simp)).2 c this
    | cons w' ws =>
      have hne : Join (w' :: ws) [' '] ≠ [] := Join_ne_nil w' ws _ (h w' (by simp)).1
      rw [Join_cons_cons, ← List.append_assoc, List.getLast?_append_of_ne_nil _ hne] at hc
      exact ih (fun x hx => h x (by simp [hx])) hc

theorem chain_word_append (w t : List Char) (hw : ∀ c ∈ w, isSpace c = false)
    (ht : List.Chain' (fun a b => ¬(isSpace a = true ∧ isSpace b = true)) t) :
    List.Chain' (fun a b => ¬(isSpace a = true ∧ isSpace b = true)) (w ++ t) := by
  induction w with
  | nil => exact ht
  | cons a w ih =>
    rw [List.cons_append, List.chain'_cons']
    refine ⟨?_, ih (fun c hc => hw c (by simp [hc]))⟩
    intro y _
    simp [hw a (by simp)]

theorem Join_chain (ws : List (List Char)) (h : ∀ w ∈ ws, IsWord w) :
    List.Chain' (fun a b => ¬(isSpace a = true ∧ isSpace b = true)) (Join ws [' ']) := by
  induction ws with
  | nil => simp [Join]
  | cons w ws ih =>
    have hw := (h w (by simp)).2
    cases ws with
    | nil =>
      have := chain_word_append w [] hw List.chain'_nil
      simpa [Join] using this
    | cons w' ws =>
      have ih' := ih (fun x hx => h x (by simp [hx]))
      rw [Join_cons_cons]
      refine chain_word_append w _ hw ?_
      rw [List.singleton_append, List.chain'_cons']
      refine ⟨?_, ih'⟩
      intro y hy
      have hw' := h w' (by simp)
      rw [Join_head w' ws _ hw'.1] at hy
      have : y ∈ w' := List.mem_of_mem_head? hy
      simp [hw'.2 y this]

theorem IsWord_map (w : List Char) (h : IsWord w) : IsWord (ReplaceCommas w) := by
  refine ⟨by simpa [ReplaceCommas] using h.1, ?_⟩
  intro c hc
  simp only [ReplaceCommas, List.mem_map] at hc
  obtain ⟨a, ha, rfl⟩ := hc
  rw [isSpace_commaToPeriod]
  exact h.2 a ha

theorem commaToPeriod_space : commaToPeriod ' ' = ' ' := by decide

/-- The normalized text as the single-space join of the rewritten fields. -/
theorem normalizeRunes_eq (s : List Char) :
    normalizeRunes s = Join ((Fields s).map ReplaceCommas) [' '] := by
  unfold normalizeRunes
  rw [Fields_TrimSpace]
  conv_lhs => unfold ReplaceCommas
  rw [Join_map, List.map_singleton, commaToPeriod_space]
  rfl

theorem normalized_words (s : List Char) : ∀ w ∈ (Fields s).map ReplaceCommas, IsWord w := by
  intro w hw
  obtain ⟨a, ha, rfl⟩ := List.mem_map.mp hw
  exact IsWord_map a (Fields_words s a ha)

theorem normalizeRunes_idem (s : List Char) :
    normalizeRunes (normalizeRunes s) = normalizeRunes s := by
  have h : Fields (normalizeRunes s) = (Fields s).map ReplaceCommas := by
    rw [normalizeRunes_eq, Fields_Join _ (normalized_words s)]
  have hidem : ∀ w : List Char, ReplaceCommas (ReplaceCommas w) = ReplaceCommas w := by
    intro w
    simp [ReplaceCommas, commaToPeriod_idem]
  rw [normalizeRunes_eq (normalizeRunes s), h, normalizeRunes_eq s, List.map_map]
  congr 1
  apply List.map_congr_left
  intro w _
  exact hidem w

/-- C9: the normalization of a message text (trim, split on whitespace and re-join with
single spaces, replace commas) has no leading or trailing whitespace, every whitespace
rune in it is a single space between two non-space runes, it is the fields of the input
joined by exactly one space each, it contains no comma, its non-space runes are those of
the input in order with every comma replaced by a period, and normalizing it again
changes nothing. -/
theorem normalize_properties (text : String) :
    (∀ c, (normalize text).data.head? = some c → isSpace c = false) ∧
    (∀ c, (normalize text).data.getLast? = some c → isSpace c = false) ∧
    (∀ c ∈ (normalize text).data, isSpace c = true → c = ' ') ∧
    List.Chain' (fun a b => ¬(isSpace a = true ∧ isSpace b = true)) (normalize text).data ∧
    Fields (normalize text).data = (Fields text.data).map ReplaceCommas ∧
    (normalize text).data = Join ((Fields text.data).map ReplaceCommas) [' '] ∧
    ',' ∉ (normalize text).data ∧
    (normalize text).data.filter (fun c => !isSpace c) =
      (text.data.filter (fun c => !isSpace c)).map commaToPeriod ∧
    normalize (normalize text) = normalize text := by
  have hd : (normalize text).data = Join ((Fields text.data).map ReplaceCommas) [' '] :=
    normalizeRunes_eq text.data
  have hw := normalized_words text.data
  refine ⟨?_, ?_, ?_, ?_, ?_, hd, ?_, ?_, ?_⟩
  · intro c hc
    rw [hd] at hc
    cases hws : (Fields text.data).map ReplaceCommas with
    | nil => rw [hws] at hc; simp [Join] at hc
    | cons w ws =>
      rw [hws] at hc hw
      have hw1 := hw w (by simp)
      rw [Join_head w ws _ hw1.1] at hc
      exact hw1.2 c (List.mem_of_mem_head? hc)
  · intro c hc
    rw [hd] at hc
    exact Join_last _ hw c hc
  · intro c hc hs
    rw [hd] at hc
    rcases mem_Join c _ _ hc with ⟨w, hwm, hcw⟩ | hsep
    · rw [(hw w hwm).2 c hcw] at hs
      exact absurd hs (by simp)
    · simpa using hsep
  · rw [hd]
    exact Join_chain _ hw
  · rw [hd]
    exact Fields_Join _ hw
  · intro hc
    have : (normalize text).data = (Join (Fields (TrimSpace text.data)) [' ']).map commaToPeriod :=
      rfl
    rw [this] at hc
    obtain ⟨a, _, ha⟩ := List.mem_map.mp hc
    exact commaToPeriod_ne_comma a ha
  · rw [hd, Join_filter _ hw, ← Fields_join, List.map_flatten]
    rfl
  · show String.mk (normalizeRunes (normalizeRunes text.data)) = String.mk (normalizeRunes text.data)
    rw [normalizeRunes_idem]

/-- C9 at a calculator command with surrounding blanks, a tab and a decimal comma. -/
theorem normalize_properties_witness :
    normalize "  /calc   1,5\t TiB " = "/calc 1.5 TiB" ∧
    Fields (normalize "  /calc   1,5\t TiB ").data =
      (Fields "  /calc   1,5\t TiB ".data).map ReplaceCommas ∧
    normalize (normalize "  /calc   1,5\t TiB ") = normalize "  /calc   1,5\t TiB " :=
  ⟨by decide,
   (normalize_properties "  /calc   1,5\t TiB ").2.2.2.2.1,
   (normalize_properties "  /calc   1,5\t TiB ").2.2.2.2.2.2.2.2⟩

end Listener

namespace Listener

/-! ## The dispatcher iteration -/

section Dispatcher

variable {σ Menu Extra : Type}

theorem selectBranch_known (cfg : Constants) (message : String)
    (h : matchesKnownCommand cfg message = true) :
    selectBranch cfg message ≠ Branch.unknownCommand ∧
    selectBranch cfg message ≠ Branch.fallback := by
  unfold selectBranch
  unfold matchesKnownCommand at h
  split_ifs <;> simp_all

theorem selectBranch_unknown (cfg : Constants) (message : String)
    (h : matchesKnownCommand cfg message = false) :
    selectBranch cfg message =
      if HasPrefix message "/" = true then Branch.unknownCommand else Branch.fallback := by
  unfold selectBranch
  unfold matchesKnownCommand at h
  split_ifs <;> simp_all

/-- The events of a case body: a known command starts with `ResetState` and resets only
once; the other two cases never reset. -/
theorem runBranch_events (cfg : Constants) (env : Collaborators σ Menu Extra) (user : σ)
    (message : String) :
    (∀ e ∈ (runBranch cfg env user message).events,
      e.isResetState = true ∨ e.isHandler = true) ∧
    (selectBranch cfg message ≠ Branch.unknownCommand →
      selectBranch cfg message ≠ Branch.fallback →
      ∃ rest, (runBranch cfg env user message).events = Event.ResetState :: rest ∧
        ∀ e ∈ rest, e.isResetState = false) ∧
    (selectBranch cfg message = Branch.unknownCommand →
      (runBranch cfg env user message).events = [] ∧
      (runBranch cfg env user message).user = user) ∧
    (selectBranch cfg message = Branch.fallback →
      (runBranch cfg env user message).events = [Event.ProcessMessage message] ∧
      (runBranch cfg env user message).user = (env.ProcessMessage user message).1) := by
  unfold runBranch
  cases selectBranch cfg message <;>
    simp [Event.isResetState, Event.isHandler]

/-- The iteration for a text message of a resolved user. -/
theorem handleUpdate_text (cfg : Constants) (env : Collaborators σ Menu Extra)
    (update : Update) (m : Message) (user : σ)
    (hu : env.GetUserByChatIdFromUpdate update = some user)
    (hm : update.Message = some m) (ht : m.Text ≠ "") :
    handleUpdate cfg env update =
      ⟨some (runBranch cfg env user (normalize m.Text)).user,
       Event.Lock :: ((runBranch cfg env user (normalize m.Text)).events ++
         [Event.GetMainMenu, Event.Unlock,
          Event.SendAnswer m.ChatID
            { (runBranch cfg env user (normalize m.Text)).userAnswer with
              MainMenu := env.GetMainMenu (runBranch cfg env user (normalize m.Text)).user }]),
       false⟩ := by
  unfold handleUpdate
  simp [hu, hm, ht, deliver]

/-- The iteration for an update without usable text, of a resolved user. -/
theorem handleUpdate_no_text (cfg : Constants) (env : Collaborators σ Menu Extra)
    (update : Update) (user : σ)
    (hu : env.GetUserByChatIdFromUpdate update = some user)
    (hm : ∀ m, update.Message = some m → m.Text = "") :
    handleUpdate cfg env update =
      match update.CallbackQuery with
      | some query =>
        ⟨some (env.ProcessCallback user query).1,
         [Event.Lock, Event.ProcessCallback query, Event.Unlock] ++
           (deliver query.Message (env.ProcessCallback user query).2).1,
         (deliver query.Message (env.ProcessCallback user query).2).2⟩
      | none =>
        ⟨some user, [Event.Lock, Event.Unlock] ++ (deliver update.Message env.zeroBotMessage).1,
         (deliver update.Message env.zeroBotMessage).2⟩ := by
  unfold handleUpdate
  rw [hu]
  cases hmsg : update.Message with
  | none => simp
  | some m => simp [hm m hmsg]

theorem deliver_shape (message : Option Message) (answer : BotMessage Menu Extra) :
    ∃ last, (deliver message answer).1 = [last] ∧
      (last.isSendAnswer = true ∨ last.isNilDereference = true) ∧
      ((deliver message answer).2 = true ↔ message = none) := by
  cases message with
  | none => exact ⟨Event.nilDereference, rfl, Or.inr rfl, by simp [deliver]⟩
  | some m => exact ⟨Event.SendAnswer m.ChatID answer, rfl, Or.inl rfl, by simp [deliver]⟩

/-- For a resolved user the events are `Lock`, then resets and handler calls only, then
`Unlock`, then the delivery (or the failed read of the chat identifier). -/
theorem handleUpdate_shape (cfg : Constants) (env : Collaborators σ Menu Extra)
    (update : Update) (user : σ)
    (hu : env.GetUserByChatIdFromUpdate update = some user) :
    ∃ mid last, (handleUpdate cfg env update).events =
        Event.Lock :: (mid ++ [Event.Unlock, last]) ∧
      (∀ e ∈ mid, e.isResetState = true ∨ e.isHandler = true) ∧
      (last.isSendAnswer = true ∨ last.isNilDereference = true) := by
  by_cases ht : ∃ m, update.Message = some m ∧ m.Text ≠ ""
  · obtain ⟨m, hm, ht⟩ := ht
    rw [handleUpdate_text cfg env update m user hu hm ht]
    refine ⟨(runBranch cfg env user (normalize m.Text)).events ++ [Event.GetMainMenu],
      Event.SendAnswer m.ChatID
        { (runBranch cfg env user (normalize m.Text)).userAnswer with
          MainMenu := env.GetMainMenu (runBranch cfg env user (normalize m.Text)).user },
      by simp, ?_, Or.inl rfl⟩
    intro e he
    rcases List.mem_append.mp he with he | he
    · exact (runBranch_events cfg env user (normalize m.Text)).1 e he
    · rw [List.mem_singleton.mp he]; exact Or.inr rfl
  · have hm : ∀ m, update.Message = some m → m.Text = "" := by
      intro m hm
      by_contra hne
      exact ht ⟨m, hm, hne⟩
    rw [handleUpdate_no_text cfg env update user hu hm]
    cases update.CallbackQuery with
    | some query =>
      obtain ⟨last, hl, hk, _⟩ := deliver_shape query.Message (env.ProcessCallback user query).2
      refine ⟨[Event.ProcessCallback query], last, by simp [hl], ?_, hk⟩
      intro e he
      rw [List.mem_singleton.mp he]; exact Or.inr rfl
    | none =>
      obtain ⟨last, hl, hk, _⟩ := deliver_shape update.Message env.zeroBotMessage
      exact ⟨[], last, by simp [hl], by simp, hk⟩

theorem lockHeld_mid (mid : List (Event Menu Extra)) (held : Bool) (tail : List (Event Menu Extra))
    (h : ∀ e ∈ mid, e.isResetState = true ∨ e.isHandler = true) :
    lockHeld held (mid ++ tail) = lockHeld held tail := by
  induction mid with
  | nil => rfl
  | cons e mid ih =>
    have he := h e (by simp)
    have ih' := ih (fun x hx => h x (by simp [hx]))
    cases e <;> simp_all [lockHeld, Event.isResetState, Event.isHandler]

theorem countP_mid (p : Event Menu Extra → Bool) (mid : List (Event Menu Extra))
    (hp : ∀ e, e.isResetState = true ∨ e.isHandler = true → p e = false)
    (h : ∀ e ∈ mid, e.isResetState = true ∨ e.isHandler = true) :
    mid.countP p = 0 := by
  rw [List.countP_eq_zero]
  intro e he
  simp [hp e (h e he)]

/-- The goroutine panics exactly when a user is resolved for an update without usable
text whose callback query has no message, or that has neither a callback query nor a
message. -/
theorem handleUpdate_panicked_iff (cfg : Constants) (env : Collaborators σ Menu Extra)
    (update : Update) :
    (handleUpdate cfg env update).panicked = true ↔
      (env.GetUserByChatIdFromUpdate update).isSome = true ∧
      (∀ m, update.Message = some m → m.Text = "") ∧
      ((∃ query, update.CallbackQuery = some query ∧ query.Message = none) ∨
        (update.CallbackQuery = none ∧ update.Message = none)) := by
  cases hu : env.GetUserByChatIdFromUpdate update with
  | none => simp [handleUpdate, hu]
  | some user =>
    by_cases ht : ∃ m, update.Message = some m ∧ m.Text ≠ ""
    · obtain ⟨m, hm, ht⟩ := ht
      rw [handleUpdate_text cfg env update m user hu hm ht]
      simp [hm, ht]
    · have hm : ∀ m, update.Message = some m → m.Text = "" := by
        intro m hm
        by_contra hne
        exact ht ⟨m, hm, hne⟩
      rw [handleUpdate_no_text cfg env update user hu hm]
      cases hq : update.CallbackQuery with
      | some query =>
        cases hqm : query.Message with
        | none => simpa [deliver, hqm] using hm
        | some qm => simp [deliver, hqm]
      | none =>
        cases hmsg : update.Message with
        | none => simp [deliver]
        | some m => simp [deliver]

end Dispatcher

/-! ## The claims about the dispatcher -/

/-- C6 (as stated, refuted): the text "/help" has a leading slash and matches no known
command; the user is resolved and is in a pending flow (state 7). The iteration takes the
unknown-command case, ResetState is never called and the user stays in state 7. -/
theorem unknown_command_keeps_state :
    sampleCollaborators.GetUserByChatIdFromUpdate (textUpdate "/help") = some 7 ∧
    HasPrefix (normalize "/help") "/" = true ∧
    selectBranch sampleConstants (normalize "/help") = Branch.unknownCommand ∧
    (handleUpdate sampleConstants sampleCollaborators (textUpdate "/help")).events =
      [Event.Lock, Event.GetMainMenu, Event.Unlock,
       Event.SendAnswer 42 ⟨"🚫 Unknown command", (), ()⟩] ∧
    (handleUpdate sampleConstants sampleCollaborators (textUpdate "/help")).events.any
      Event.isResetState = false ∧
    (handleUpdate sampleConstants sampleCollaborators (textUpdate "/help")).user = some 7 := by
  refine ⟨rfl, by decide, by decide, ?_, ?_, ?_⟩
  · decide
  · decide
  · decide

/-- C6 (amended): for a resolved user and a non-empty message text, every case for a known
command (start, add, delete, price or its button, calculator or its button, info or its
button) calls ResetState directly after the lock is taken, before any handler and before
the answer, and only once. The two remaining cases never call ResetState: the
unknown-command case (any other leading slash) leaves the user record as it was, and the
fallback passes the text to ProcessMessage on the record as it was. -/
theorem known_commands_reset_state {σ Menu Extra : Type} (cfg : Constants)
    (env : Collaborators σ Menu Extra) (update : Update) (m : Message) (user : σ)
    (hu : env.GetUserByChatIdFromUpdate update = some user)
    (hm : update.Message = some m) (ht : m.Text ≠ "") :
    (matchesKnownCommand cfg (normalize m.Text) = true →
      ∃ rest, (handleUpdate cfg env update).events =
          Event.Lock :: Event.ResetState :: rest ∧
        ∀ e ∈ rest, e.isResetState = false) ∧
    (matchesKnownCommand cfg (normalize m.Text) = false →
      (∀ e ∈ (handleUpdate cfg env update).events, e.isResetState = false) ∧
      (HasPrefix (normalize m.Text) "/" = true →
        selectBranch cfg (normalize m.Text) = Branch.unknownCommand ∧
        (handleUpdate cfg env update).user = some user) ∧
      (HasPrefix (normalize m.Text) "/" = false →
        selectBranch cfg (normalize m.Text) = Branch.fallback ∧
        (handleUpdate cfg env update).user =
          some (env.ProcessMessage user (normalize m.Text)).1)) := by
  rw [handleUpdate_text cfg env update m user hu hm ht]
  have hb := runBranch_events cfg env user (normalize m.Text)
  constructor
  · intro hk
    have hs := selectBranch_known cfg (normalize m.Text) hk
    obtain ⟨rest, hr, hno⟩ := hb.2.1 hs.1 hs.2
    refine ⟨rest ++ [Event.GetMainMenu, Event.Unlock,
      Event.SendAnswer m.ChatID
        { (runBranch cfg env user (normalize m.Text)).userAnswer with
          MainMenu := env.GetMainMenu (runBranch cfg env user (normalize m.Text)).user }],
      by simp [hr], ?_⟩
    intro e he
    rcases List.mem_append.mp he with he | he
    · exact hno e he
    · simp only [List.mem_cons, List.mem_singleton, List.not_mem_nil, or_false] at he
      rcases he with rfl | rfl | rfl <;> rfl
  · intro hk
    have hs := selectBranch_unknown cfg (normalize m.Text) hk
    refine ⟨?_, ?_, ?_⟩
    · intro e he
      by_cases hp : HasPrefix (normalize m.Text) "/" = true
      · rw [if_pos hp] at hs
        simp only [(hb.2.2.1 hs).1, List.nil_append, List.mem_cons, List.mem_singleton,
          List.not_mem_nil, or_false] at he
        rcases he with rfl | rfl | rfl | rfl <;> rfl
      · rw [if_neg hp] at hs
        simp only [(hb.2.2.2 hs).1, List.singleton_append, List.mem_cons, List.mem_singleton,
          List.not_mem_nil, or_false] at he
        rcases he with rfl | rfl | rfl | rfl | rfl <;> rfl
    · intro hp
      rw [if_pos hp] at hs
      exact ⟨hs, by rw [(hb.2.2.1 hs).2]⟩
    · intro hp
      rw [if_neg (by simp [hp])] at hs
      exact ⟨hs, by rw [(hb.2.2.2 hs).2]⟩

/-- C6 (amended) at a calculator command sent by a user in a pending flow. -/
theorem known_commands_reset_state_witness :
    sampleCollaborators.GetUserByChatIdFromUpdate (textUpdate " /calc  1,5 ") = some 7 ∧
    normalize " /calc  1,5 " = "/calc 1.5" ∧
    matchesKnownCommand sampleConstants (normalize " /calc  1,5 ") = true ∧
    ∃ rest, (handleUpdate sampleConstants sampleCollaborators
        (textUpdate " /calc  1,5 ")).events = Event.Lock :: Event.ResetState :: rest ∧
      ∀ e ∈ rest, e.isResetState = false :=
  ⟨rfl, by decide, by decide,
   (known_commands_reset_state sampleConstants sampleCollaborators (textUpdate " /calc  1,5 ")
      { ChatID := 42, Text := " /calc  1,5 " } 7 rfl rfl (by decide)).1 (by decide)⟩

theorem getLast_after_unlock {α : Type} (a : α) (l : List α) (x y z : α) :
    (a :: (l ++ [x, y, z])).getLast? = some z := by
  have h : a :: (l ++ [x, y, z]) = (a :: (l ++ [x, y])) ++ [z] := by simp
  rw [h, List.getLast?_concat]

/-- C7: with the users manager resolving sessions by the chat identifier of the update,
for every inbound update whose user is resolved and that carries message text, or has no
message (a callback-only update), or has no callback query (neither usable text nor a
callback), handling does not fail on a nil message: the iteration ends by delivering the
answer to the chat identifier of a message that is present (the update's message, or the
callback query's message), no nil dereference occurs and the loop proceeds. -/
theorem handleUpdate_message_present {σ Menu Extra : Type} (cfg : Constants)
    (env : Collaborators σ Menu Extra) (acquire : Int → Option σ) (update : Update)
    (user : σ)
    (hres : env.GetUserByChatIdFromUpdate = GetUserByChatIdFromUpdate acquire)
    (hu : env.GetUserByChatIdFromUpdate update = some user)
    (hshape : (∃ m, update.Message = some m ∧ m.Text ≠ "") ∨ update.Message = none ∨
      update.CallbackQuery = none) :
    (handleUpdate cfg env update).panicked = false ∧
    (∀ e ∈ (handleUpdate cfg env update).events, e.isNilDereference = false) ∧
    ∃ m answer,
      (handleUpdate cfg env update).events.getLast? = some (Event.SendAnswer m.ChatID answer) ∧
      (update.Message = some m ∨
        ∃ query, update.CallbackQuery = some query ∧ query.Message = some m) := by
  have hid : GetUserByChatIdFromUpdate acquire update = some user := by
    rw [← hres]; exact hu
  by_cases ht : ∃ m, update.Message = some m ∧ m.Text ≠ ""
  · obtain ⟨m, hm, ht⟩ := ht
    rw [handleUpdate_text cfg env update m user hu hm ht]
    refine ⟨rfl, ?_, m,
      { (runBranch cfg env user (normalize m.Text)).userAnswer with
        MainMenu := env.GetMainMenu (runBranch cfg env user (normalize m.Text)).user },
      ?_, Or.inl hm⟩
    · intro e he
      rcases List.mem_cons.mp he with rfl | he
      · rfl
      · rcases List.mem_append.mp he with he | he
        · rcases (runBranch_events cfg env user (normalize m.Text)).1 e he with h | h <;>
            cases e <;> simp_all [Event.isResetState, Event.isHandler, Event.isNilDereference]
        · simp only [List.mem_cons, List.mem_singleton, List.not_mem_nil, or_false] at he
          rcases he with rfl | rfl | rfl <;> rfl
    · exact getLast_after_unlock _ _ _ _ _
  · have hm : ∀ m, update.Message = some m → m.Text = "" := by
      intro m hm
      by_contra hne
      exact ht ⟨m, hm, hne⟩
    rw [handleUpdate_no_text cfg env update user hu hm]
    cases hq : update.CallbackQuery with
    | some query =>
      have hnone : update.Message = none := by
        rcases hshape with h | h | h
        · exact absurd h ht
        · exact h
        · rw [hq] at h; exact absurd h (by simp)
      cases hqm : query.Message with
      | none =>
        simp [GetUserByChatIdFromUpdate, updateChatID, hnone, hq, hqm] at hid
      | some qm =>
        refine ⟨by simp [deliver, hqm], ?_, qm, (env.ProcessCallback user query).2, ?_,
          Or.inr ⟨query, rfl, hqm⟩⟩
        · intro e he
          simp only [deliver, hqm, List.cons_append, List.nil_append, List.mem_cons,
            List.mem_singleton, List.not_mem_nil, or_false] at he
          rcases he with rfl | rfl | rfl | rfl <;> rfl
        · simp [deliver, hqm]
    | none =>
      cases hmsg : update.Message with
      | none =>
        simp [GetUserByChatIdFromUpdate, updateChatID, hmsg, hq] at hid
      | some m =>
        refine ⟨by simp [deliver], ?_, m, env.zeroBotMessage, ?_, Or.inl rfl⟩
        · intro e he
          simp only [deliver, List.cons_append, List.nil_append, List.mem_cons,
            List.mem_singleton, List.not_mem_nil, or_false] at he
          rcases he with rfl | rfl | rfl <;> rfl
        · simp [deliver]

/-- C7 at a callback-only update of chat 42: the answer goes to chat 42, the chat of the
callback query's message. -/
theorem handleUpdate_message_present_witness :
    resolvingCollaborators.GetUserByChatIdFromUpdate callbackUpdate = some 7 ∧
    callbackUpdate.Message = none ∧
    (handleUpdate sampleConstants resolvingCollaborators callbackUpdate).panicked = false ∧
    (handleUpdate sampleConstants resolvingCollaborators callbackUpdate).events.getLast? =
      some (Event.SendAnswer 42 ⟨"callback handled", (), ()⟩) :=
  ⟨rfl, rfl,
   (handleUpdate_message_present sampleConstants resolvingCollaborators (fun _ => some 7)
      callbackUpdate 7 rfl rfl (Or.inr (Or.inl rfl))).1,
   by decide⟩

/-- C8: in one iteration, when the user cannot be resolved nothing happens (no lock, no
response); otherwise the lock is taken exactly once, before every state reset and handler
call, it is released exactly once after them on every path (text command, callback or
neither), the response is delivered (or its delivery fails) only after the release, and
no lock is held when the iteration ends. -/
theorem handleUpdate_lock_discipline {σ Menu Extra : Type} (cfg : Constants)
    (env : Collaborators σ Menu Extra) (update : Update) :
    (env.GetUserByChatIdFromUpdate update = none →
      (handleUpdate cfg env update).events = []) ∧
    (∀ user, env.GetUserByChatIdFromUpdate update = some user →
      (∃ mid last, (handleUpdate cfg env update).events =
          Event.Lock :: (mid ++ [Event.Unlock, last]) ∧
        (∀ e ∈ mid, e.isResetState = true ∨ e.isHandler = true) ∧
        (last.isSendAnswer = true ∨ last.isNilDereference = true)) ∧
      (handleUpdate cfg env update).events.countP Event.isLock = 1 ∧
      (handleUpdate cfg env update).events.countP Event.isUnlock = 1 ∧
      (handleUpdate cfg env update).events.countP
        (fun e => e.isSendAnswer || e.isNilDereference) = 1) ∧
    lockHeld false (handleUpdate cfg env update).events = false := by
  cases hu : env.GetUserByChatIdFromUpdate update with
  | none =>
    have he : (handleUpdate cfg env update).events = [] := by
      simp [handleUpdate, hu]
    refine ⟨fun _ => he, fun user h => by simp at h, ?_⟩
    rw [he]; rfl
  | some user =>
    obtain ⟨mid, last, hev, hmid, hlast⟩ := handleUpdate_shape cfg env update user hu
    have hL : mid.countP Event.isLock = 0 :=
      countP_mid _ mid (by intro e he; cases e <;> simp_all [Event.isLock,
        Event.isResetState, Event.isHandler]) hmid
    have hU : mid.countP Event.isUnlock = 0 :=
      countP_mid _ mid (by intro e he; cases e <;> simp_all [Event.isUnlock,
        Event.isResetState, Event.isHandler]) hmid
    have hS : mid.countP (fun e => e.isSendAnswer || e.isNilDereference) = 0 :=
      countP_mid _ mid (by intro e he; cases e <;> simp_all [Event.isSendAnswer,
        Event.isNilDereference, Event.isResetState, Event.isHandler]) hmid
    have hlastL : last.isLock = false ∧ last.isUnlock = false ∧
        (last.isSendAnswer || last.isNilDereference) = true := by
      cases last <;> simp_all [Event.isLock, Event.isUnlock, Event.isSendAnswer,
        Event.isNilDereference]
    refine ⟨fun h => by simp at h, fun u _ => ⟨⟨mid, last, hev, hmid, hlast⟩, ?_, ?_, ?_⟩, ?_⟩
    · have e1 : (Event.Lock : Event Menu Extra).isLock = true := rfl
      have e2 : (Event.Unlock : Event Menu Extra).isLock = false := rfl
      rw [hev]
      simp [List.countP_cons, List.countP_append, hL, hlastL.1, e1, e2]
    · have e1 : (Event.Lock : Event Menu Extra).isUnlock = false := rfl
      have e2 : (Event.Unlock : Event Menu Extra).isUnlock = true := rfl
      rw [hev]
      simp [List.countP_cons, List.countP_append, hU, hlastL.2.1, e1, e2]
    · have e1 : ((Event.Lock : Event Menu Extra).isSendAnswer ||
          (Event.Lock : Event Menu Extra).isNilDereference) = false := rfl
      have e2 : ((Event.Unlock : Event Menu Extra).isSendAnswer ||
          (Event.Unlock : Event Menu Extra).isNilDereference) = false := rfl
      rw [hev]
      rw [List.countP_cons, List.countP_append, List.countP_cons, List.countP_cons,
        List.countP_nil, hS, e1, e2, hlastL.2.2]
      rfl
    · rw [hev]
      have h1 : lockHeld false (Event.Lock :: (mid ++ [Event.Unlock, last])) =
          lockHeld true (mid ++ [Event.Unlock, last]) := rfl
      rw [h1, lockHeld_mid mid true _ hmid]
      cases last <;> simp_all [lockHeld, Event.isSendAnswer, Event.isNilDereference]

/-- C8 at a callback-only update of a resolved user. -/
theorem handleUpdate_lock_discipline_witness :
    (handleUpdate sampleConstants sampleCollaborators callbackUpdate).events =
      [Event.Lock, Event.ProcessCallback
          { Message := some { ChatID := 42, Text := "menu" }, Data := "price" },
       Event.Unlock, Event.SendAnswer 42 ⟨"callback handled", (), ()⟩] ∧
    (handleUpdate sampleConstants sampleCollaborators callbackUpdate).events.countP
      Event.isLock = 1 ∧
    lockHeld false (handleUpdate sampleConstants sampleCollaborators callbackUpdate).events =
      false :=
  ⟨by decide,
   ((handleUpdate_lock_discipline sampleConstants sampleCollaborators callbackUpdate).2.1 7
      rfl).2.1,
   (handleUpdate_lock_discipline sampleConstants sampleCollaborators callbackUpdate).2.2⟩

end Listener
